import Mathlib

/-!
Shallow embedding of the SHIELD-Data repository watcher.

Sources embedded:
- src/main.py    (Handler: on_any_event, parse_run_info, create_pr_content, process_batch)
- src/mwe.py     (Handler: the strict resolver variant that raises on missing preconditions)
- src/improved_watchdog.py (CSVFileHandler: create_pull_request with its PR-list check)

External effects (subprocess exit codes, the filesystem, template rendering, the
gh PR listing output) are supplied as explicit oracle inputs; the commands a
pass issues are returned as a trace.
-/

/-! Debounce scheduler, main.py lines 131-136 (mwe.py 127-132): every event
cancels the outstanding timer and arms a fresh one for BATCH_DELAY; a timer
that elapses uncancelled runs process_batch once. Events are modeled by their
arrival times in ascending order. A timer armed at time t fires at t + delay
unless a later event arrives strictly before t + delay; an event arriving
exactly at the deadline is modeled as arriving after the timer fired. -/
def fireTimes (delay : Nat) : List Nat → List Nat
  | [] => []
  | [t] => [t + delay]
  | t :: t' :: rest =>
      if t' < t + delay then fireTimes delay (t' :: rest)
      else (t + delay) :: fireTimes delay (t' :: rest)

/-- Every pair of consecutive events is separated by strictly less than delay. -/
def allGapsLt (delay : Nat) : List Nat → Bool
  | t :: t' :: rest => decide (t' < t + delay) && allGapsLt delay (t' :: rest)
  | _ => true

/-- Every pair of consecutive events is separated by at least delay. -/
def allGapsGe (delay : Nat) : List Nat → Bool
  | t :: t' :: rest => decide (t + delay ≤ t') && allGapsGe delay (t' :: rest)
  | _ => true

/-! Path handling: pathlib.Path(p).parts for the relative slash-separated paths
this program works with. Empty components are dropped, as pathlib does. -/
def splitPartsAux : List Char → List Char → List String
  | [], cur => [String.mk cur.reverse]
  | c :: rest, cur =>
      if c = '/' then String.mk cur.reverse :: splitPartsAux rest []
      else splitPartsAux rest (c :: cur)

def pathParts (s : String) : List String :=
  (splitPartsAux s.toList []).filter (fun p => p != "")

/-- Spec wording helper, used only to state claims: the final segment of a path. -/
def finalSegment (s : String) : Option String := (pathParts s).getLast?

/-- Python substring containment, the needle in hay operator on str. -/
def substrIn (needle hay : String) : Bool :=
  (List.range (hay.toList.length + 1)).any
    (fun i => needle.toList.isPrefixOf (hay.toList.drop i))

/-- Python re.match of the raw pattern for two digits, a dot, two digits
(anchored at the start only, as re.match is). -/
def matchesDate (s : String) : Bool :=
  match s.toList with
  | c1 :: c2 :: c3 :: c4 :: c5 :: _ =>
      c1.isDigit && c2.isDigit && (c3 = '.') && c4.isDigit && c5.isDigit
  | _ => false

/-- Splits a maximal digit prefix off a character list. -/
def splitDigits : List Char → List Char × List Char
  | [] => ([], [])
  | c :: rest =>
      if c.isDigit then
        let dr := splitDigits rest
        (c :: dr.1, dr.2)
      else ([], c :: rest)

/-- Python re.match of the run-folder pattern: the literal run_, one or more
digits, an underscore, two digits, the letter h, two digits; anchored at the
start only. Greedy digit matching is equivalent here because the digit run is
followed by a non-digit. -/
def matchesRun (s : String) : Bool :=
  match s.toList with
  | 'r' :: 'u' :: 'n' :: '_' :: rest =>
      let dr := splitDigits rest
      match dr.1, dr.2 with
      | [], _ => false
      | _ :: _, '_' :: a :: b :: 'h' :: c :: d :: _ =>
          a.isDigit && b.isDigit && c.isDigit && d.isDigit
      | _ :: _, _ => false
  | _ => false

/-- The part-scanning loop shared by both parse_run_info variants: walk the
path parts, remembering the last part matching the date pattern and the last
part matching the run pattern (the elif makes the checks exclusive). -/
def scanParts : List String → Option String × Option String → Option String × Option String
  | [], acc => acc
  | part :: rest, acc =>
      scanParts rest
        (if matchesDate part then (some part, acc.2)
         else if matchesRun part then (acc.1, some part)
         else acc)

/-! JSON values as json.load produces them for the manifests this program
reads; only strings, integers and objects appear in any claim. -/
inductive Json where
  | str (s : String)
  | num (n : Int)
  | obj (fields : List (String × Json))

/-- Dictionary lookup; lookups on non-objects (a TypeError in Python, never
reached by any claim) are modeled as absent. -/
def Json.getField : Json → String → Option Json
  | .obj fields, key => List.lookup key fields
  | _, _ => none

/-- Python str() of a JSON scalar as interpolated by an f-string. Objects would
print as a dict literal; no claim renders a non-scalar, so the obj branch
yields a fixed placeholder. -/
def pyStr : Json → String
  | .str s => s
  | .num n => toString n
  | .obj _ => "\x7b...\x7d"

def isPySpace (c : Char) : Bool := c == ' ' || c == '\n' || c == '\t' || c == '\r'

/-- Python str.strip(). -/
def pyStrip (s : String) : String :=
  String.mk (((s.toList.dropWhile isPySpace).reverse.dropWhile isPySpace).reverse)

/-- Python x or dflt for an optional string x (None and the empty string are falsy). -/
def pyOr (o : Option String) (dflt : String) : String :=
  match o with
  | none => dflt
  | some s => if s = "" then dflt else s

/-- Python s or dflt for a plain string s. -/
def pyOrS (s dflt : String) : String := if s = "" then dflt else s

/-- What the filesystem holds at a path: nothing, a file that fails JSON
decoding, or a file parsing to a JSON value. -/
inductive FileContent where
  | valid (j : Json)
  | invalid

abbrev FS := String → Option FileContent

inductive EventKind where
  | created | modified | deleted | moved
deriving DecidableEq, Repr

/-- The mutable fields of Handler (main.py 19-23 / mwe.py 20-24) that the
claims concern; the timer is modeled separately by fireTimes. The Python sets
are lists without duplicates, inserted in arrival order. -/
structure HandlerState where
  current_branch : Option String
  pending_changes : List String
  session_files : List String
deriving DecidableEq, Repr

def initialState : HandlerState := ⟨none, [], []⟩

/-- Set insertion. -/
def insertPath (p : String) (l : List String) : List String :=
  if p ∈ l then l else l ++ [p]

/-- Set union, session_files.update(pending_changes). -/
def unionList (a b : List String) : List String :=
  b.foldl (fun acc p => insertPath p acc) a

/-- Path(src_path).relative_to(Path("results")): strips the watched-root
prefix; a path not under it raises ValueError, modeled as none. -/
def relativeToResults (p : String) : Option String :=
  match p.toList with
  | 'r' :: 'e' :: 's' :: 'u' :: 'l' :: 't' :: 's' :: '/' :: rest => some (String.mk rest)
  | _ => none

/-- Handler.on_any_event (main.py 118-129 / mwe.py 114-125), collector part
only: directory events are ignored; otherwise the source path is normalized
relative to the watched root and inserted into pending_changes. The event kind
is not consulted by the source. -/
def on_any_event (st : HandlerState) (is_directory : Bool) (kind : EventKind)
    (src_path : String) : Option HandlerState :=
  if is_directory then some st
  else
    match relativeToResults src_path with
    | none => none
    | some rel => some { st with pending_changes := insertPath rel st.pending_changes }

/-- The version-control and review-request commands a pass issues, in order. -/
inductive Cmd where
  | checkout (ref : String)
  | checkoutNewBranch (ref : String)
  | addAll
  | diffCachedQuiet
  | commit (msg : String)
  | push (branch : String)
  | prCreate (title : String) (base : String) (head : String)
  | prList (head : String)
deriving DecidableEq, Repr

/-- Outcome classification of one completed pass. There is deliberately no
Failed constructor: the source never inspects the staging, commit or push exit
codes, so no pass can report a failure of those stages. -/
inductive PublishOutcome where
  | created | updated | noOpNoChanges
deriving DecidableEq, Repr

/-- The failures mwe.py parse_run_info raises: FileNotFoundError at its two
raise sites, ValueError for undecodable JSON and for missing folder patterns,
KeyError for the missing run_info section or a missing required field. -/
inductive ResolverError where
  | manifestMissing
  | manifestFileAbsent (path : String)
  | manifestInvalid
  | runInfoMissing
  | fieldMissing (field : String)
  | dateFolderMissing
  | runFolderMissing
deriving DecidableEq, Repr

def MANIFEST : String := "run_metadata.json"

/-- The manifest search loop of both variants: the first batch path containing
the manifest filename as a substring. -/
def findManifest (file_paths : List String) : Option String :=
  file_paths.find? (fun p => substrIn MANIFEST p)

def requiredFields : List String := ["run_type", "date", "furnace_setpoint"]

/-- The required-field loop of mwe.py 55-57: the first field absent from
run_info, if any. -/
def firstMissingField (run_info : Json) (fields : List String) : Option String :=
  fields.find? (fun f => (run_info.getField f).isNone)

structure RunInfoOut where
  date_folder : String
  run_folder : String
  metadata : Json
  total_files : Nat

/-- Handler.parse_run_info of mwe.py (lines 26-84). The sample path whose
segments are scanned is the head of the list (next(iter(...)) on the set); the
empty-list branch after a manifest was found is unreachable. -/
def Mwe.parse_run_info (fs : FS) (file_paths : List String) :
    Except ResolverError RunInfoOut :=
  match findManifest file_paths with
  | none => .error .manifestMissing
  | some mp =>
    match fs ("results/" ++ mp) with
    | none => .error (.manifestFileAbsent ("results/" ++ mp))
    | some .invalid => .error .manifestInvalid
    | some (.valid metadata) =>
      match metadata.getField "run_info" with
      | none => .error .runInfoMissing
      | some run_info =>
        match firstMissingField run_info requiredFields with
        | some f => .error (.fieldMissing f)
        | none =>
          match file_paths with
          | [] => .error .manifestMissing
          | sample :: _ =>
            match scanParts (pathParts sample) (none, none) with
            | (none, _) => .error .dateFolderMissing
            | (some _, none) => .error .runFolderMissing
            | (some d, some r) => .ok ⟨d, r, metadata, file_paths.length⟩

inductive RenderError where
  | runInfoKeyError
  | templateMissing
deriving DecidableEq, Repr

structure TemplateArgs where
  run_type : String
  date : String
  furnace_setpoint : String
  total_files : Nat
deriving DecidableEq, Repr

/-- Handler.create_pr_content of mwe.py (86-112). Jinja rendering is an
external collaborator and is passed in as the render oracle (metadata_json and
the timestamp are folded into it). KeyError on the run_info lookups is modeled
as runInfoKeyError; a missing pr_template.md as templateMissing. The title is
built before the template check, exactly as in the source. -/
def Mwe.create_pr_content (template : Option String) (run_info : RunInfoOut)
    (render : TemplateArgs → String) : Except RenderError (String × String) :=
  match run_info.metadata.getField "run_info" with
  | none => .error .runInfoKeyError
  | some run_data =>
    match run_data.getField "run_type", run_data.getField "date",
          run_data.getField "furnace_setpoint" with
    | some rt, some dt, some fsp =>
      let title := "New run data: " ++ pyStr rt ++ "; " ++ pyStr dt ++ "; " ++ pyStr fsp ++ " K"
      match template with
      | none => .error .templateMissing
      | some _tpl =>
        .ok (title, render ⟨pyStr rt, pyStr dt, pyStr fsp, run_info.total_files⟩)
    | _, _, _ => .error .runInfoKeyError

structure MainRunInfo where
  date_folder : Option String
  run_folder : Option String
  metadata : Json
  total_files : Nat

/-- Handler.parse_run_info of main.py (25-61): it never fails on a nonempty
batch; a missing or unreadable manifest is only logged and leaves metadata as
the empty dict. StopIteration on an empty set is modeled as none. -/
def Main.parse_run_info (fs : FS) (file_paths : List String) : Option MainRunInfo :=
  match file_paths with
  | [] => none
  | sample :: _ =>
    let dr := scanParts (pathParts sample) (none, none)
    let metadata :=
      match findManifest file_paths with
      | none => Json.obj []
      | some mp =>
        match fs ("results/" ++ mp) with
        | some (.valid j) => j
        | _ => Json.obj []
    some ⟨dr.1, dr.2, metadata, file_paths.length⟩

/-- The title line of Handler.create_pr_content in main.py (63-80): top-level
metadata.get lookups with Unknown defaults; a missing date_folder interpolates
as None. -/
def Main.title (ri : MainRunInfo) : String :=
  let run_type := pyStr ((ri.metadata.getField "run_type").getD (.str "Unknown"))
  let fsp := pyStr ((ri.metadata.getField "furnace_setpoint").getD (.str "Unknown"))
  "New run data: " ++ run_type ++ "; " ++ ri.date_folder.getD "None" ++ "; " ++ fsp ++ " K"

/-- Exit codes one pass observes. Only diffExit is ever read by the source
(main.py 166-167 and 200-201); the add, commit and push results are discarded
there. The other fields exist so that claims about ignored failures can be
stated. -/
structure GitEnv where
  addExit : Int
  diffExit : Int
  commitExit : Int
  pushExit : Int
deriving DecidableEq, Repr

/-- Handler.process_batch of main.py (138-212), with the subprocess world as an
oracle (env), the random 7-character branch suffix (fresh) and the current-time
stamp (nowMsg) as inputs. Returns the new handler state, the issued command
trace and the pass outcome (none when the batch was empty and the pass
returned early; the parse-none branch is unreachable for a nonempty batch). -/
def Main.process_batch (fs : FS) (env : GitEnv) (fresh nowMsg : String)
    (st : HandlerState) : HandlerState × List Cmd × Option PublishOutcome :=
  if st.pending_changes = [] then (st, [], none)
  else
    match Main.parse_run_info fs st.pending_changes with
    | none => (st, [], none)
    | some ri =>
      let title := Main.title ri
      match st.current_branch with
      | none =>
        let branch := "add_new_data_" ++ fresh
        let msg := "Add experimental data: " ++ pyOr ri.date_folder "unknown" ++ "/" ++
          pyOr ri.run_folder "unknown"
        let pre := [Cmd.checkout "main", Cmd.checkoutNewBranch branch, Cmd.addAll,
          Cmd.diffCachedQuiet]
        let st' : HandlerState :=
          ⟨some branch, [], unionList st.session_files st.pending_changes⟩
        if env.diffExit ≠ 0 then
          (st', pre ++ [Cmd.commit msg, Cmd.push branch, Cmd.prCreate title "main" branch],
            some .created)
        else (st', pre, some .noOpNoChanges)
      | some branch =>
        let msg := "Update data session - " ++ nowMsg
        let pre := [Cmd.checkout branch, Cmd.addAll, Cmd.diffCachedQuiet]
        let st' : HandlerState :=
          ⟨some branch, [], unionList st.session_files st.pending_changes⟩
        if env.diffExit ≠ 0 then
          (st', pre ++ [Cmd.commit msg, Cmd.push branch], some .updated)
        else (st', pre, some .noOpNoChanges)

/-- The inputs of one debounce firing: the batch the collector gathered since
the previous firing plus the oracles of that pass. -/
structure PassInput where
  batch : List String
  env : GitEnv
  fresh : String
  nowMsg : String

/-- One collector-plus-pass step: the events of the batch are inserted into
pending_changes (the collector), then process_batch runs. -/
def Main.step (fs : FS) (st : HandlerState) (p : PassInput) :
    HandlerState × List Cmd × Option PublishOutcome :=
  Main.process_batch fs p.env p.fresh p.nowMsg
    { st with pending_changes := unionList st.pending_changes p.batch }

/-- The handler state after a sequence of debounce firings. -/
def Main.finalState (fs : FS) (st : HandlerState) (ps : List PassInput) : HandlerState :=
  ps.foldl (fun s p => (Main.step fs s p).1) st

/-- The handler states after each firing, in order. -/
def Main.trajectory (fs : FS) (st : HandlerState) : List PassInput → List HandlerState
  | [] => []
  | p :: rest =>
    (Main.step fs st p).1 :: Main.trajectory fs (Main.step fs st p).1 rest

/-- All commands issued over a sequence of firings. -/
def Main.cmdsOf (fs : FS) (st : HandlerState) : List PassInput → List Cmd
  | [] => []
  | p :: rest =>
    (Main.step fs st p).2.1 ++ Main.cmdsOf fs (Main.step fs st p).1 rest

structure MweEnv where
  addExit : Int
  diffExit : Int
  commitExit : Int
  pushExit : Int
  prCreateExit : Int
deriving DecidableEq, Repr

/-- How one mwe.py pass ends: normally, or with one of the exceptions the
source can raise, each leaving the state exactly as the source does. -/
inductive PassResult where
  | ok (o : PublishOutcome)
  | raisedResolver (e : ResolverError)
  | raisedRender (e : RenderError)
  | raisedPrCreate
  | skippedEmpty
deriving DecidableEq, Repr

/-- Handler.process_batch of mwe.py (134-221). parse_run_info and
create_pr_content raise on failure, aborting the pass with the state untouched;
gh pr create runs with check=True, so a nonzero prCreateExit raises after the
branch assignment, commit and push but before session_files.update and
pending_changes.clear. Git exits other than the diff are discarded. -/
def Mwe.process_batch (fs : FS) (env : MweEnv) (template : Option String)
    (render : TemplateArgs → String) (fresh nowMsg : String) (st : HandlerState) :
    HandlerState × List Cmd × PassResult :=
  if st.pending_changes = [] then (st, [], .skippedEmpty)
  else
    match Mwe.parse_run_info fs st.pending_changes with
    | .error e => (st, [], .raisedResolver e)
    | .ok ri =>
      match Mwe.create_pr_content template ri render with
      | .error e => (st, [], .raisedRender e)
      | .ok (title, _body) =>
        match st.current_branch with
        | none =>
          let branch := "add_new_data_" ++ fresh
          let msg := "Add experimental data: " ++ pyOrS ri.date_folder "unknown" ++ "/" ++
            pyOrS ri.run_folder "unknown"
          let pre := [Cmd.checkout "main", Cmd.checkoutNewBranch branch, Cmd.addAll,
            Cmd.diffCachedQuiet]
          if env.diffExit ≠ 0 then
            let cmds := pre ++ [Cmd.commit msg, Cmd.push branch,
              Cmd.prCreate title "main" branch]
            if env.prCreateExit ≠ 0 then
              ({ st with current_branch := some branch }, cmds, .raisedPrCreate)
            else
              (⟨some branch, [], unionList st.session_files st.pending_changes⟩, cmds,
                .ok .created)
          else
            (⟨some branch, [], unionList st.session_files st.pending_changes⟩, pre,
              .ok .noOpNoChanges)
        | some branch =>
          let msg := "Update data session - " ++ nowMsg
          let pre := [Cmd.checkout branch, Cmd.addAll, Cmd.diffCachedQuiet]
          let st' : HandlerState :=
            ⟨some branch, [], unionList st.session_files st.pending_changes⟩
          if env.diffExit ≠ 0 then
            (st', pre ++ [Cmd.commit msg, Cmd.push branch], .ok .updated)
          else (st', pre, .ok .noOpNoChanges)

def BRANCH_NAME : String := "auto-csv-update"

structure GhEnv where
  prListExit : Int
  prListStdout : String
deriving DecidableEq, Repr

/-- CSVFileHandler.create_pull_request of improved_watchdog.py (115-167),
command trace only: it lists PRs for the branch; when the listing succeeded and
its stripped stdout is not the empty array, creation is skipped; otherwise,
also when the listing itself failed, a create is issued. -/
def Csv.create_pull_request (env : GhEnv) (file_name : String) : List Cmd :=
  Cmd.prList BRANCH_NAME ::
    (if env.prListExit = 0 then
      if pyStrip env.prListStdout ≠ "[]" then []
      else [Cmd.prCreate ("Add new CSV data file: " ++ file_name) "main" BRANCH_NAME]
    else [Cmd.prCreate ("Add new CSV data file: " ++ file_name) "main" BRANCH_NAME])

def isPrCreateCmd : Cmd → Bool
  | .prCreate _ _ _ => true
  | _ => false

def isCommitCmd : Cmd → Bool
  | .commit _ => true
  | _ => false

/-- Faithful model of the review-request tool state for one branch: the
listing reports a nonempty JSON array exactly when a request exists. -/
def ghListStdout (prExists : Bool) : String :=
  if prExists then "[\x7b\"number\":1\x7d]" else "[]"

/-- A run of create_pull_request invocations against the faithful tool model:
after a create the request exists, and later listings report it. -/
def Csv.runSeq : Bool → List String → List Cmd
  | _, [] => []
  | prExists, f :: rest =>
    let cmds := Csv.create_pull_request ⟨0, ghListStdout prExists⟩ f
    cmds ++ Csv.runSeq (prExists || cmds.any isPrCreateCmd) rest

/-! Helper lemmas about the set operations and the pass functions. -/

theorem mem_insertPath {x p : String} {l : List String} :
    x ∈ insertPath p l ↔ x ∈ l ∨ x = p := by
  unfold insertPath
  by_cases h : p ∈ l
  · simp only [if_pos h]
    constructor
    · exact Or.inl
    · rintro (hx | rfl)
      · exact hx
      · exact h
  · simp [if_neg h]

theorem mem_unionList {x : String} {b : List String} : ∀ {a : List String},
    x ∈ unionList a b ↔ x ∈ a ∨ x ∈ b := by
  induction b with
  | nil => intro a; simp [unionList]
  | cons q b' ih =>
    intro a
    rw [show unionList a (q :: b') = unionList (insertPath q a) b' from rfl]
    rw [ih, mem_insertPath]
    simp only [List.mem_cons]
    tauto

theorem unionList_ne_nil {a b : List String} (h : b ≠ []) : unionList a b ≠ [] := by
  rcases List.exists_mem_of_ne_nil b h with ⟨x, hx⟩
  intro hu
  have hmem : x ∈ unionList a b := mem_unionList.mpr (Or.inr hx)
  rw [hu] at hmem
  exact absurd hmem (List.not_mem_nil x)

theorem Main.process_batch_empty (fs : FS) (env : GitEnv) (fresh nowMsg : String)
    (st : HandlerState) (h : st.pending_changes = []) :
    Main.process_batch fs env fresh nowMsg st = (st, [], none) := by
  unfold Main.process_batch
  rw [if_pos h]

theorem Main.parse_ne_none (fs : FS) (l : List String) (h : l ≠ []) :
    Main.parse_run_info fs l ≠ none := by
  cases l with
  | nil => exact absurd rfl h
  | cons a t => simp [Main.parse_run_info]

/-- After any completed nonempty pass: the branch is kept when it was set and
freshly generated otherwise, the pending batch is cleared, and session_files
absorbs the batch, independently of every exit code but the diff one. -/
theorem Main.process_batch_state (fs : FS) (env : GitEnv) (fresh nowMsg : String)
    (st : HandlerState) (hne : st.pending_changes ≠ []) :
    (Main.process_batch fs env fresh nowMsg st).1 =
      ⟨some (st.current_branch.getD ("add_new_data_" ++ fresh)), [],
        unionList st.session_files st.pending_changes⟩ := by
  unfold Main.process_batch
  rw [if_neg hne]
  split
  · next heq => exact absurd heq (Main.parse_ne_none fs st.pending_changes hne)
  · next ri heq =>
    cases hcb : st.current_branch with
    | none => by_cases hd : env.diffExit ≠ 0 <;> simp [hcb, hd]
    | some b => by_cases hd : env.diffExit ≠ 0 <;> simp [hcb, hd]

/-- A nonempty pass with a clean diff reports noOpNoChanges and issues neither
commit, push nor request creation. -/
theorem Main.process_batch_noop (fs : FS) (env : GitEnv) (fresh nowMsg : String)
    (st : HandlerState) (hne : st.pending_changes ≠ []) (hd : env.diffExit = 0) :
    (Main.process_batch fs env fresh nowMsg st).2.2 = some .noOpNoChanges ∧
    (∀ m, Cmd.commit m ∉ (Main.process_batch fs env fresh nowMsg st).2.1) ∧
    (∀ b, Cmd.push b ∉ (Main.process_batch fs env fresh nowMsg st).2.1) ∧
    (∀ t base head, Cmd.prCreate t base head ∉ (Main.process_batch fs env fresh nowMsg st).2.1) := by
  unfold Main.process_batch
  rw [if_neg hne]
  split
  · next heq => exact absurd heq (Main.parse_ne_none fs st.pending_changes hne)
  · next ri heq =>
    have hd' : ¬ env.diffExit ≠ 0 := by simp [hd]
    cases hcb : st.current_branch with
    | none => simp [hcb, if_neg hd']
    | some b => simp [hcb, if_neg hd']

/-- A pass that starts with an active branch never issues a request creation
nor a request listing, and keeps that branch. -/
theorem Main.process_batch_cont (fs : FS) (env : GitEnv) (fresh nowMsg : String)
    (st : HandlerState) (b : String) (hcb : st.current_branch = some b) :
    (Main.process_batch fs env fresh nowMsg st).1.current_branch = some b ∧
    (∀ t base head, Cmd.prCreate t base head ∉ (Main.process_batch fs env fresh nowMsg st).2.1) := by
  by_cases hne : st.pending_changes = []
  · rw [Main.process_batch_empty fs env fresh nowMsg st hne]
    simp [hcb]
  · constructor
    · rw [Main.process_batch_state fs env fresh nowMsg st hne, hcb]
      rfl
    · unfold Main.process_batch
      rw [if_neg hne]
      split
      · next heq => exact absurd heq (Main.parse_ne_none fs st.pending_changes hne)
      · next ri heq =>
        rw [hcb]
        by_cases hd : env.diffExit ≠ 0 <;> simp [hd]

/-- No main.py pass ever issues a request-listing command. -/
theorem Main.process_batch_no_prList (fs : FS) (env : GitEnv) (fresh nowMsg : String)
    (st : HandlerState) (br : String) :
    Cmd.prList br ∉ (Main.process_batch fs env fresh nowMsg st).2.1 := by
  by_cases hne : st.pending_changes = []
  · rw [Main.process_batch_empty fs env fresh nowMsg st hne]
    simp
  · unfold Main.process_batch
    rw [if_neg hne]
    split
    · next heq => exact absurd heq (Main.parse_ne_none fs st.pending_changes hne)
    · next ri heq =>
      cases hcb : st.current_branch with
      | none => by_cases hd : env.diffExit ≠ 0 <;> simp [hd]
      | some b => by_cases hd : env.diffExit ≠ 0 <;> simp [hd]

theorem Main.step_branch (fs : FS) (st : HandlerState) (p : PassInput) (b : String)
    (hcb : st.current_branch = some b) :
    (Main.step fs st p).1.current_branch = some b :=
  (Main.process_batch_cont fs p.env p.fresh p.nowMsg
    { st with pending_changes := unionList st.pending_changes p.batch } b hcb).1

theorem Main.step_no_prCreate (fs : FS) (st : HandlerState) (p : PassInput) (b : String)
    (hcb : st.current_branch = some b) :
    ∀ t base head, Cmd.prCreate t base head ∉ (Main.step fs st p).2.1 :=
  (Main.process_batch_cont fs p.env p.fresh p.nowMsg
    { st with pending_changes := unionList st.pending_changes p.batch } b hcb).2

/-- Once a branch is active it stays active with the same identifier through
every later firing, and no later firing issues a request creation. -/
theorem Main.branch_stable (fs : FS) (b : String) :
    ∀ (ps : List PassInput) (st : HandlerState), st.current_branch = some b →
      (∀ st' ∈ Main.trajectory fs st ps, st'.current_branch = some b) ∧
      (Main.finalState fs st ps).current_branch = some b ∧
      (∀ t base head, Cmd.prCreate t base head ∉ Main.cmdsOf fs st ps)
  | [], st, hcb => by
    refine ⟨?_, hcb, ?_⟩
    · intro st' hst'
      simp [Main.trajectory] at hst'
    · intro t base head
      simp [Main.cmdsOf]
  | p :: rest, st, hcb => by
    have hstep : (Main.step fs st p).1.current_branch = some b := Main.step_branch fs st p b hcb
    have ih := Main.branch_stable fs b rest (Main.step fs st p).1 hstep
    refine ⟨?_, ih.2.1, ?_⟩
    · intro st' hst'
      rw [Main.trajectory] at hst'
      rcases List.mem_cons.mp hst' with rfl | hmem
      · exact hstep
      · exact ih.1 st' hmem
    · intro t base head
      rw [Main.cmdsOf]
      rw [List.mem_append]
      rintro (hmem | hmem)
      · exact Main.step_no_prCreate fs st p b hcb t base head hmem
      · exact ih.2.2 t base head hmem

/-- With an active branch and an empty pending set, the final session file set
is the initial one joined with every later batch. -/
theorem Main.final_session (fs : FS) :
    ∀ (ps : List PassInput) (st : HandlerState) (b : String),
      st.current_branch = some b → st.pending_changes = [] →
      ∀ x, x ∈ (Main.finalState fs st ps).session_files ↔
        x ∈ st.session_files ∨ ∃ p ∈ ps, x ∈ p.batch
  | [], st, b, hcb, hpe, x => by simp [Main.finalState]
  | p :: rest, st, b, hcb, hpe, x => by
    rw [show Main.finalState fs st (p :: rest) =
         Main.finalState fs (Main.step fs st p).1 rest from rfl]
    by_cases hbe : p.batch = []
    · have hst1 : ({ st with pending_changes := unionList st.pending_changes p.batch }
          : HandlerState) = st := by
        cases st
        simp_all [hpe, hbe, unionList]
      have hstep : (Main.step fs st p).1 = st := by
        unfold Main.step
        rw [hst1, Main.process_batch_empty fs p.env p.fresh p.nowMsg st hpe]
      rw [hstep]
      rw [Main.final_session fs rest st b hcb hpe x]
      simp [hbe]
    · have hne : ({ st with pending_changes := unionList st.pending_changes p.batch }
          : HandlerState).pending_changes ≠ [] := unionList_ne_nil hbe
      have hstate := Main.process_batch_state fs p.env p.fresh p.nowMsg
        { st with pending_changes := unionList st.pending_changes p.batch } hne
      have hstep : (Main.step fs st p).1 =
          ⟨some (st.current_branch.getD ("add_new_data_" ++ p.fresh)), [],
            unionList st.session_files (unionList st.pending_changes p.batch)⟩ := hstate
      rw [hstep]
      rw [Main.final_session fs rest _ (st.current_branch.getD ("add_new_data_" ++ p.fresh))
            rfl rfl x]
      simp only [mem_unionList, hpe, List.not_mem_nil, false_or, List.mem_cons]
      constructor
      · rintro ((h | h) | h)
        · exact Or.inl h
        · exact Or.inr ⟨p, Or.inl rfl, h⟩
        · rcases h with ⟨q, hq, hx⟩
          exact Or.inr ⟨q, Or.inr hq, hx⟩
      · rintro (h | ⟨q, hq | hq, hx⟩)
        · exact Or.inl (Or.inl h)
        · subst hq
          exact Or.inl (Or.inr hx)
        · exact Or.inr ⟨q, hq, hx⟩

/-- The first firing on a nonempty batch from the fresh-process state arms the
generated branch, clears the batch and records exactly the batch as the
session files. -/
theorem Main.first_step (fs : FS) (p : PassInput) (h : p.batch ≠ []) :
    (Main.step fs initialState p).1.current_branch = some ("add_new_data_" ++ p.fresh) ∧
    (Main.step fs initialState p).1.pending_changes = [] ∧
    ∀ x, x ∈ (Main.step fs initialState p).1.session_files ↔ x ∈ p.batch := by
  have hne : ({ initialState with pending_changes := unionList [] p.batch }
      : HandlerState).pending_changes ≠ [] := unionList_ne_nil h
  have hstate := Main.process_batch_state fs p.env p.fresh p.nowMsg
    { initialState with pending_changes := unionList [] p.batch } hne
  have hstep : (Main.step fs initialState p).1 =
      ⟨some ("add_new_data_" ++ p.fresh), [], unionList [] (unionList [] p.batch)⟩ := hstate
  refine ⟨by rw [hstep], by rw [hstep], ?_⟩
  intro x
  rw [hstep]
  show x ∈ unionList [] (unionList [] p.batch) ↔ x ∈ p.batch
  rw [mem_unionList, mem_unionList]
  simp

/-- Under gaps strictly below the delay, the rolling cancel-and-rearm timer
fires once, at the last arrival plus the delay. -/
theorem fireTimes_of_allGapsLt (d : Nat) :
    ∀ es : List Nat, es ≠ [] → allGapsLt d es = true →
      fireTimes d es = [es.getLast?.getD 0 + d]
  | [], hne, _ => absurd rfl hne
  | [t], _, _ => by simp [fireTimes]
  | t :: t' :: rest, _, hg => by
    simp only [allGapsLt, Bool.and_eq_true, decide_eq_true_eq] at hg
    have ih := fireTimes_of_allGapsLt d (t' :: rest) (by simp) hg.2
    unfold fireTimes
    rw [if_pos hg.1, ih, List.getLast?_cons_cons]

/-- Under gaps at least the delay, every arrival fires its own timer, at its
own time plus the delay. -/
theorem fireTimes_of_allGapsGe (d : Nat) :
    ∀ es : List Nat, allGapsGe d es = true → fireTimes d es = es.map (· + d)
  | [], _ => rfl
  | [t], _ => by simp [fireTimes]
  | t :: t' :: rest, hg => by
    simp only [allGapsGe, Bool.and_eq_true, decide_eq_true_eq] at hg
    have ih := fireTimes_of_allGapsGe d (t' :: rest) hg.2
    unfold fireTimes
    rw [if_neg (not_lt.mpr hg.1), ih]
    rfl

/-- Whatever the scan returns in its date slot either matched the date
pattern inside the scanned parts or was already in the accumulator. -/
theorem scanParts_date_mem :
    ∀ (l : List String) (acc : Option String × Option String) (d : String),
      (scanParts l acc).1 = some d →
      (matchesDate d = true ∧ d ∈ l) ∨ acc.1 = some d
  | [], acc, d, h => Or.inr h
  | part :: rest, acc, d, h => by
    rw [scanParts] at h
    rcases scanParts_date_mem rest _ d h with ⟨hm, hmem⟩ | hacc
    · exact Or.inl ⟨hm, List.mem_cons_of_mem _ hmem⟩
    · cases hmd : matchesDate part with
      | true =>
        rw [if_pos hmd] at hacc
        simp only at hacc
        cases hacc
        exact Or.inl ⟨hmd, List.mem_cons_self _ _⟩
      | false =>
        rw [if_neg (by simp [hmd])] at hacc
        cases hmr : matchesRun part with
        | true =>
          rw [if_pos hmr] at hacc
          exact Or.inr hacc
        | false =>
          rw [if_neg (by simp [hmr])] at hacc
          exact Or.inr hacc

/-- Whatever the scan returns in its run slot either matched the run-folder
pattern inside the scanned parts or was already in the accumulator. -/
theorem scanParts_run_mem :
    ∀ (l : List String) (acc : Option String × Option String) (r : String),
      (scanParts l acc).2 = some r →
      (matchesRun r = true ∧ r ∈ l) ∨ acc.2 = some r
  | [], acc, r, h => Or.inr h
  | part :: rest, acc, r, h => by
    rw [scanParts] at h
    rcases scanParts_run_mem rest _ r h with ⟨hm, hmem⟩ | hacc
    · exact Or.inl ⟨hm, List.mem_cons_of_mem _ hmem⟩
    · cases hmd : matchesDate part with
      | true =>
        rw [if_pos hmd] at hacc
        exact Or.inr hacc
      | false =>
        rw [if_neg (by simp [hmd])] at hacc
        cases hmr : matchesRun part with
        | true =>
          rw [if_pos hmr] at hacc
          simp only at hacc
          cases hacc
          exact Or.inl ⟨hmr, List.mem_cons_self _ _⟩
        | false =>
          rw [if_neg (by simp [hmr])] at hacc
          exact Or.inr hacc

/-- With a request already reported for the branch, the run keeps skipping
creation forever. -/
theorem Csv.runSeq_true_creates :
    ∀ files : List String, (Csv.runSeq true files).countP isPrCreateCmd = 0
  | [] => rfl
  | f :: rest => by
    have hcp : Csv.create_pull_request ⟨0, ghListStdout true⟩ f
        = [Cmd.prList BRANCH_NAME] := rfl
    rw [Csv.runSeq, hcp]
    rw [List.countP_append]
    have hany : ([Cmd.prList BRANCH_NAME] : List Cmd).any isPrCreateCmd = false := rfl
    rw [hany]
    simp only [Bool.or_false]
    rw [Csv.runSeq_true_creates rest]
    rfl

/-- Against a faithful listing, a whole run creates at most one request. -/
theorem Csv.runSeq_le_one :
    ∀ (b : Bool) (files : List String), (Csv.runSeq b files).countP isPrCreateCmd ≤ 1
  | true, files => le_of_eq_of_le (Csv.runSeq_true_creates files) (Nat.zero_le 1)
  | false, [] => by simp [Csv.runSeq]
  | false, f :: rest => by
    have hcp : Csv.create_pull_request ⟨0, ghListStdout false⟩ f
        = [Cmd.prList BRANCH_NAME,
           Cmd.prCreate ("Add new CSV data file: " ++ f) "main" BRANCH_NAME] := rfl
    rw [Csv.runSeq, hcp]
    rw [List.countP_append]
    have hany : ([Cmd.prList BRANCH_NAME,
        Cmd.prCreate ("Add new CSV data file: " ++ f) "main" BRANCH_NAME] : List Cmd).any
          isPrCreateCmd = true := rfl
    rw [hany]
    simp only [Bool.false_or]
    rw [Csv.runSeq_true_creates rest]
    simp [List.countP, List.countP.go, isPrCreateCmd]

/-! Concrete scenario data used by the claims. -/

/-- A filesystem with no readable files. -/
def fsEmpty : FS := fun _ => none

/-- The manifest of the end-to-end scenario. -/
def manifest9 : Json :=
  .obj [("run_info", .obj [("run_type", .str "anneal"), ("date", .str "01.15"),
    ("furnace_setpoint", .num 900)])]

/-- A filesystem holding exactly that manifest at its expected location. -/
def fs9 : FS := fun p =>
  if p = "results/01.15/run_3_09h30/run_metadata.json" then some (.valid manifest9) else none

def batch9 : List String :=
  ["01.15/run_3_09h30/pressure_gauge_data.csv", "01.15/run_3_09h30/run_metadata.json"]

/-- An arbitrary template renderer standing for jinja2. -/
def render9 : TemplateArgs → String := fun _ => "rendered body"

def env9 : MweEnv := ⟨0, 1, 0, 0, 0⟩

/-- A manifest whose run_info lacks furnace_setpoint. -/
def manifestNoSetpoint : Json :=
  .obj [("run_info", .obj [("run_type", .str "anneal"), ("date", .str "01.15")])]

def fsNoSetpoint : FS := fun p =>
  if p = "results/01.15/run_3_09h30/run_metadata.json" then some (.valid manifestNoSetpoint)
  else none

def batchManifestOnly : List String := ["01.15/run_3_09h30/run_metadata.json"]

/-- A batch whose only path carries the manifest filename as a proper suffix of
its final segment, so no final segment equals the manifest filename. -/
def myManifestBatch : List String := ["01.15/run_3_09h30/myrun_metadata.json"]

def fsMy : FS := fun p =>
  if p = "results/01.15/run_3_09h30/myrun_metadata.json" then some (.valid manifest9) else none

/-- A mid-session handler state with one pending file. -/
def stW : HandlerState := ⟨some "add_new_data_xyz9999", ["01.15/run_3_09h30/a.csv"], []⟩

/-- A single concrete firing input. -/
def pW : PassInput := ⟨["01.15/run_3_09h30/a.csv"], ⟨0, 1, 0, 0⟩, "abc1234", "ts"⟩

/-! The claims. -/

/-- Claim C1: Debounce coalescing. For every finite ascending sequence of
recorded events whose consecutive events are separated by strictly less than
the batch delay, exactly one process_batch firing occurs, and it occurs at
the last event plus the delay of quiescence; events separated by at least the
delay each trigger their own firing at their own time plus the delay. The
cancel-before-rearm behavior of each on-activity call is what fireTimes
encodes. -/
theorem debounce_coalescing (d : Nat) (es : List Nat) (hne : es ≠ []) :
    (allGapsLt d es = true → fireTimes d es = [es.getLast?.getD 0 + d]) ∧
    (allGapsGe d es = true → fireTimes d es = es.map (· + d)) :=
  ⟨fun hg => fireTimes_of_allGapsLt d es hne hg,
   fun hg => fireTimes_of_allGapsGe d es hg⟩

/-- Witness for debounce_coalescing: with delay 3, the burst 0,1,2 coalesces
into the single firing at 5, and the spaced events 0,3,6 fire at 3,6,9. -/
theorem debounce_coalescing_witness :
    fireTimes 3 [0, 1, 2] = [5] ∧ fireTimes 3 [0, 3, 6] = [3, 6, 9] := by
  constructor
  · have h := (debounce_coalescing 3 [0, 1, 2] (by decide)).1 (by decide)
    simpa using h
  · have h := (debounce_coalescing 3 [0, 3, 6] (by decide)).2 (by decide)
    simpa using h

/-- Claim C7 counterexample: a non-directory event of kind deleted inserts its
normalized path into the pending batch, contradicting the claim that deleted
events do not insert a path. -/
theorem collector_deleted_cex :
    on_any_event initialState false EventKind.deleted "results/a.csv"
      = some ⟨none, ["a.csv"], []⟩ ∧
    "a.csv" ∈ (insertPath "a.csv" initialState.pending_changes) := by
  constructor
  · rfl
  · decide

/-- Claim C7 (amended): the collector ignores every directory event, and for
every non-directory event of every kind (created, modified, moved AND
deleted - the source never consults the kind) it inserts the root-normalized
path into the pending batch. -/
theorem collector_records_all_kinds (st : HandlerState) (kind : EventKind)
    (path rel : String) (hrel : relativeToResults path = some rel) :
    on_any_event st true kind path = some st ∧
    on_any_event st false kind path
      = some { st with pending_changes := insertPath rel st.pending_changes } ∧
    (∀ st', on_any_event st false kind path = some st' → rel ∈ st'.pending_changes) := by
  refine ⟨rfl, ?_, ?_⟩
  · unfold on_any_event
    rw [if_neg (by simp), hrel]
  · intro st' hst'
    unfold on_any_event at hst'
    rw [if_neg (by simp), hrel] at hst'
    cases hst'
    exact mem_insertPath.mpr (Or.inr rfl)

/-- Witness for collector_records_all_kinds at a concrete modified-kind event. -/
theorem collector_records_all_kinds_witness :
    on_any_event initialState false EventKind.modified "results/b/c.csv"
      = some ⟨none, ["b/c.csv"], []⟩ :=
  ((collector_records_all_kinds initialState EventKind.modified
    "results/b/c.csv" "b/c.csv" rfl).2.1).trans (by decide)

/-- Claim C9: End-to-end scenario. On the two-path batch with the anneal
manifest, the resolver returns date folder 01.15, run folder run_3_09h30 and
two total files; the renderer receives those fields and the title is exactly
the expected one; and a pass from the fresh no-session state creates the new
branch, stages, commits, pushes and opens the review request with that title,
with outcome created. -/
theorem end_to_end_scenario :
    Mwe.parse_run_info fs9 batch9 = .ok ⟨"01.15", "run_3_09h30", manifest9, 2⟩ ∧
    Mwe.create_pr_content (some "template") ⟨"01.15", "run_3_09h30", manifest9, 2⟩ render9
      = .ok ("New run data: anneal; 01.15; 900 K", render9 ⟨"anneal", "01.15", "900", 2⟩) ∧
    Mwe.process_batch fs9 env9 (some "template") render9 "abc1234" "ts" ⟨none, batch9, []⟩
      = (⟨some "add_new_data_abc1234", [], batch9⟩,
         [Cmd.checkout "main", Cmd.checkoutNewBranch "add_new_data_abc1234", Cmd.addAll,
          Cmd.diffCachedQuiet, Cmd.commit "Add experimental data: 01.15/run_3_09h30",
          Cmd.push "add_new_data_abc1234",
          Cmd.prCreate "New run data: anneal; 01.15; 900 K" "main" "add_new_data_abc1234"],
         .ok .created) :=
  ⟨rfl, rfl, rfl⟩

/-- Claim C2 counterexample: a batch with no path whose final segment equals
the manifest filename on which resolution nevertheless succeeds, because the
source tests substring containment anywhere in the path, not the final
segment; in particular it does not yield the ManifestMissing failure. -/
theorem resolver_final_segment_cex :
    finalSegment "01.15/run_3_09h30/myrun_metadata.json" = some "myrun_metadata.json" ∧
    "myrun_metadata.json" ≠ MANIFEST ∧
    Mwe.parse_run_info fsMy myManifestBatch
      = .ok ⟨"01.15", "run_3_09h30", manifest9, 1⟩ := by
  refine ⟨by decide, by decide, rfl⟩

/-- Claim C2 (amended): for every non-empty batch in which no path contains
the manifest filename as a substring, resolution yields ManifestMissing (a
raised FileNotFoundError, not a crash of the watcher), the pass aborts leaving
the pending batch intact, and resolving again after a path holding an
existing, complete manifest is added to the batch succeeds. -/
theorem resolver_fail_closed (fs : FS) (batch : List String) (hne : batch ≠ [])
    (hnm : ∀ p ∈ batch, substrIn MANIFEST p = false) :
    Mwe.parse_run_info fs batch = .error .manifestMissing ∧
    (∀ (env : MweEnv) (template : Option String) (render : TemplateArgs → String)
       (fresh nowMsg : String) (st : HandlerState), st.pending_changes = batch →
       (Mwe.process_batch fs env template render fresh nowMsg st).1 = st ∧
       (Mwe.process_batch fs env template render fresh nowMsg st).2.2
         = .raisedResolver .manifestMissing) ∧
    (∀ (mp : String) (m ri : Json) (d r : String),
       substrIn MANIFEST mp = true →
       fs ("results/" ++ mp) = some (.valid m) →
       m.getField "run_info" = some ri →
       firstMissingField ri requiredFields = none →
       scanParts (pathParts mp) (none, none) = (some d, some r) →
       Mwe.parse_run_info fs (mp :: batch) = .ok ⟨d, r, m, batch.length + 1⟩) := by
  have hfind : findManifest batch = none := by
    rw [findManifest, List.find?_eq_none]
    intro p hp
    simp [hnm p hp]
  have hperr : Mwe.parse_run_info fs batch = .error .manifestMissing := by
    unfold Mwe.parse_run_info
    rw [hfind]
  refine ⟨hperr, ?_, ?_⟩
  · intro env template render fresh nowMsg st hpend
    have hpne : st.pending_changes ≠ [] := by rw [hpend]; exact hne
    unfold Mwe.process_batch
    rw [if_neg hpne, hpend, hperr]
    exact ⟨rfl, rfl⟩
  · intro mp m ri d r hsub hfs hri hmiss hscan
    have hfindc : findManifest (mp :: batch) = some mp :=
      List.find?_cons_of_pos _ hsub
    unfold Mwe.parse_run_info
    rw [hfindc]
    dsimp only
    rw [hfs]
    dsimp only
    rw [hri]
    dsimp only
    rw [hmiss]
    dsimp only
    rw [hscan]
    dsimp only
    rfl

/-- Witness for resolver_fail_closed: a manifest-free batch resolves to
ManifestMissing and, with the manifest path put in front, resolves to the
expected RunMetadata. -/
theorem resolver_fail_closed_witness :
    Mwe.parse_run_info fs9 ["01.15/run_3_09h30/pressure_gauge_data.csv"]
      = .error .manifestMissing ∧
    Mwe.parse_run_info fs9
        ("01.15/run_3_09h30/run_metadata.json" :: ["01.15/run_3_09h30/pressure_gauge_data.csv"])
      = .ok ⟨"01.15", "run_3_09h30", manifest9, 2⟩ := by
  have h := resolver_fail_closed fs9 ["01.15/run_3_09h30/pressure_gauge_data.csv"]
    (by decide) (by decide)
  exact ⟨h.1, h.2.2 "01.15/run_3_09h30/run_metadata.json" manifest9
    (.obj [("run_type", .str "anneal"), ("date", .str "01.15"), ("furnace_setpoint", .num 900)])
    "01.15" "run_3_09h30" (by decide) rfl rfl rfl rfl⟩

/-- Claim C3: RunMetadata construction invariant. A RunInfoOut is produced
only if its date folder matched the date pattern, its run folder matched the
run pattern (both found among the segments of a batch path), the manifest file
was found in the batch, existed and parsed, and its run_info object held every
required field; and a manifest whose run_info has run_type and date but lacks
furnace_setpoint makes resolution fail with exactly that field name while the
pass leaves the handler state, pending batch included, untouched. -/
theorem runmetadata_invariant :
    (∀ (fs : FS) (batch : List String) (r : RunInfoOut),
       Mwe.parse_run_info fs batch = .ok r →
       matchesDate r.date_folder = true ∧ matchesRun r.run_folder = true ∧
       (∃ sample ∈ batch, r.date_folder ∈ pathParts sample ∧
          r.run_folder ∈ pathParts sample) ∧
       (∃ mp ∈ batch, substrIn MANIFEST mp = true ∧
          fs ("results/" ++ mp) = some (.valid r.metadata)) ∧
       (∃ ri, r.metadata.getField "run_info" = some ri ∧
          ∀ f ∈ requiredFields, (ri.getField f).isSome = true)) ∧
    (∀ (fs : FS) (batch : List String) (mp : String) (m ri : Json),
       findManifest batch = some mp →
       fs ("results/" ++ mp) = some (.valid m) →
       m.getField "run_info" = some ri →
       (ri.getField "run_type").isSome = true →
       (ri.getField "date").isSome = true →
       ri.getField "furnace_setpoint" = none →
       Mwe.parse_run_info fs batch = .error (.fieldMissing "furnace_setpoint") ∧
       (∀ (env : MweEnv) (template : Option String) (render : TemplateArgs → String)
          (fresh nowMsg : String) (st : HandlerState), st.pending_changes = batch →
          (Mwe.process_batch fs env template render fresh nowMsg st).1 = st)) := by
  constructor
  · intro fs batch r h
    unfold Mwe.parse_run_info at h
    split at h
    · exact absurd h (by simp)
    next mp hfind =>
      split at h
      · exact absurd h (by simp)
      · exact absurd h (by simp)
      next metadata hfs =>
        split at h
        · exact absurd h (by simp)
        next run_info hri =>
          split at h
          · exact absurd h (by simp)
          next hmiss =>
            split at h
            · exact absurd h (by simp)
            next samp stail =>
              split at h
              · exact absurd h (by simp)
              · exact absurd h (by simp)
              next d rr hscan =>
                rw [Except.ok.injEq] at h
                subst h
                have hd := scanParts_date_mem (pathParts samp) (none, none) d
                  (by rw [hscan])
                have hr := scanParts_run_mem (pathParts samp) (none, none) rr
                  (by rw [hscan])
                rcases hd with ⟨hdm, hdmem⟩ | hbad
                · rcases hr with ⟨hrm, hrmem⟩ | hbad'
                  · refine ⟨hdm, hrm, ?_, ?_, ?_⟩
                    · exact ⟨samp, List.mem_cons_self _ _, hdmem, hrmem⟩
                    · refine ⟨mp, List.mem_of_find?_eq_some hfind, ?_, hfs⟩
                      have := List.find?_some hfind
                      simpa using this
                    · refine ⟨run_info, hri, ?_⟩
                      intro f hf
                      have hnf := List.find?_eq_none.mp hmiss f hf
                      cases hgf : run_info.getField f with
                      | none => exact absurd (by simp [Option.isNone, hgf]) hnf
                      | some v => simp [hgf]
                  · exact absurd hbad' (by simp)
                · exact absurd hbad (by simp)
  · intro fs batch mp m ri hfind hfs hri hrt hdt hfsp
    obtain ⟨v1, h1⟩ := Option.isSome_iff_exists.mp hrt
    obtain ⟨v2, h2⟩ := Option.isSome_iff_exists.mp hdt
    have hmiss : firstMissingField ri requiredFields = some "furnace_setpoint" := by
      have e1 : (ri.getField "run_type").isNone = false := by rw [h1]; rfl
      have e2 : (ri.getField "date").isNone = false := by rw [h2]; rfl
      have e3 : (ri.getField "furnace_setpoint").isNone = true := by rw [hfsp]; rfl
      simp [firstMissingField, requiredFields, List.find?, e1, e2, e3]
    have hperr : Mwe.parse_run_info fs batch = .error (.fieldMissing "furnace_setpoint") := by
      unfold Mwe.parse_run_info
      rw [hfind]
      dsimp only
      rw [hfs]
      dsimp only
      rw [hri]
      dsimp only
      rw [hmiss]
    refine ⟨hperr, ?_⟩
    intro env template render fresh nowMsg st hpend
    unfold Mwe.process_batch
    by_cases hpe : st.pending_changes = []
    · rw [if_pos hpe]
    · rw [if_neg hpe, hpend, hperr]

/-- Witness for runmetadata_invariant: the invariant instantiated at the
successful end-to-end parse, and the furnace_setpoint-free manifest failing
with exactly that field while the pass state survives unchanged. -/
theorem runmetadata_invariant_witness :
    (matchesDate "01.15" = true ∧ matchesRun "run_3_09h30" = true) ∧
    Mwe.parse_run_info fsNoSetpoint batchManifestOnly
      = .error (.fieldMissing "furnace_setpoint") ∧
    (Mwe.process_batch fsNoSetpoint ⟨0, 1, 0, 0, 0⟩ (some "template") render9 "abc1234" "ts"
        ⟨none, batchManifestOnly, []⟩).1 = ⟨none, batchManifestOnly, []⟩ := by
  have h1 := (runmetadata_invariant).1 fs9 batch9 ⟨"01.15", "run_3_09h30", manifest9, 2⟩ rfl
  have h2 := (runmetadata_invariant).2 fsNoSetpoint batchManifestOnly
    "01.15/run_3_09h30/run_metadata.json" manifestNoSetpoint
    (.obj [("run_type", .str "anneal"), ("date", .str "01.15")])
    rfl rfl rfl rfl rfl rfl
  exact ⟨⟨h1.1, h1.2.1⟩, h2.1, h2.2 ⟨0, 1, 0, 0, 0⟩ (some "template") render9 "abc1234" "ts"
    ⟨none, batchManifestOnly, []⟩ rfl⟩

/-- Claim C4: Session continuity. For a run whose first firing carries a
nonempty batch, every state after a firing carries the branch identifier
generated at that first firing, so the branch identifier is the same across
all later calls and the machine never returns to the no-session state; and the
final cumulative session file set holds exactly the union of all the batches. -/
theorem session_continuity (fs : FS) (p0 : PassInput) (rest : List PassInput)
    (h0 : p0.batch ≠ []) :
    (∀ st' ∈ Main.trajectory fs initialState (p0 :: rest),
       st'.current_branch = some ("add_new_data_" ++ p0.fresh)) ∧
    (∀ x, x ∈ (Main.finalState fs initialState (p0 :: rest)).session_files ↔
       x ∈ p0.batch ∨ ∃ p ∈ rest, x ∈ p.batch) := by
  obtain ⟨hb, hp, hs⟩ := Main.first_step fs p0 h0
  have hstable := Main.branch_stable fs ("add_new_data_" ++ p0.fresh) rest
    (Main.step fs initialState p0).1 hb
  constructor
  · intro st' hst'
    rw [Main.trajectory] at hst'
    rcases List.mem_cons.mp hst' with rfl | hmem
    · exact hb
    · exact hstable.1 st' hmem
  · intro x
    rw [show Main.finalState fs initialState (p0 :: rest) =
         Main.finalState fs (Main.step fs initialState p0).1 rest from rfl]
    rw [Main.final_session fs rest (Main.step fs initialState p0).1
      ("add_new_data_" ++ p0.fresh) hb hp x]
    rw [hs x]

/-- Witness for session_continuity: one concrete firing records its batch as
the session files under the generated branch. -/
theorem session_continuity_witness :
    (Main.step fsEmpty initialState pW).1.current_branch = some "add_new_data_abc1234" ∧
    "01.15/run_3_09h30/a.csv" ∈ (Main.finalState fsEmpty initialState [pW]).session_files := by
  have h := session_continuity fsEmpty pW [] (by decide)
  constructor
  · exact h.1 (Main.step fsEmpty initialState pW).1
      (by rw [Main.trajectory]; exact List.mem_cons_self _ _)
  · exact (h.2 "01.15/run_3_09h30/a.csv").mpr (Or.inl (by decide))

/-- Claim C5 counterexample: a pass in which the push command reports exit
status 1 - nonzero, and not the nothing-to-commit signal, which only the diff
conveys - nevertheless reports the completed outcome updated rather than any
failure, and clears the pending batch. -/
theorem publish_failure_ignored_cex :
    (Main.process_batch fsEmpty ⟨0, 1, 0, 1⟩ "abc1234" "ts" stW).2.2
      = some PublishOutcome.updated ∧
    (Main.process_batch fsEmpty ⟨0, 1, 0, 1⟩ "abc1234" "ts" stW).1.pending_changes = [] :=
  ⟨rfl, rfl⟩

/-- Claim C5 (amended): a publish pass inspects only the diff exit status: the
staging, commit and push statuses are ignored, so two subprocess worlds that
agree on the diff exit produce identical passes, every completed pass clears
the pending batch whatever those statuses were, and in the mwe variant the
pending batch survives exactly the passes that raise, such as a checked
request-creation failure. -/
theorem batch_cleared_regardless (fs : FS) (fresh nowMsg : String) (st : HandlerState)
    (hne : st.pending_changes ≠ []) :
    (∀ envA envB : GitEnv, envA.diffExit = envB.diffExit →
       Main.process_batch fs envA fresh nowMsg st = Main.process_batch fs envB fresh nowMsg st) ∧
    (∀ env : GitEnv, (Main.process_batch fs env fresh nowMsg st).1.pending_changes = []) ∧
    (∀ (env : MweEnv) (template : Option String) (render : TemplateArgs → String),
       (Mwe.process_batch fs env template render fresh nowMsg st).2.2 = .raisedPrCreate →
       (Mwe.process_batch fs env template render fresh nowMsg st).1.pending_changes
         = st.pending_changes) := by
  refine ⟨?_, ?_, ?_⟩
  · intro envA envB hdiff
    unfold Main.process_batch
    rw [hdiff]
  · intro env
    rw [Main.process_batch_state fs env fresh nowMsg st hne]
  · intro env template render hres
    unfold Mwe.process_batch at hres ⊢
    rw [if_neg hne] at hres ⊢
    split at hres
    · exact absurd hres (by simp)
    next ri hparse =>
      split at hres
      · exact absurd hres (by simp)
      next title body hcontent =>
        split at hres
        next hcb =>
          dsimp only at hres ⊢
          split at hres
          next hdiff =>
            split at hres
            next hpr => rw [if_pos hdiff, if_pos hpr]
            next hpr => exact absurd hres (by simp)
          next hdiff => exact absurd hres (by simp)
        next b hcb =>
          dsimp only at hres ⊢
          split at hres
          next hdiff => exact absurd hres (by simp)
          next hdiff => exact absurd hres (by simp)

/-- Witness for batch_cleared_regardless: a failed push and a clean push
produce the very same pass, and the batch is cleared despite the failure. -/
theorem batch_cleared_regardless_witness :
    Main.process_batch fsEmpty ⟨0, 1, 0, 1⟩ "abc1234" "ts" stW
      = Main.process_batch fsEmpty ⟨0, 1, 0, 0⟩ "abc1234" "ts" stW ∧
    (Main.process_batch fsEmpty ⟨7, 1, 5, 3⟩ "abc1234" "ts" stW).1.pending_changes = [] := by
  have h := batch_cleared_regardless fsEmpty "abc1234" "ts" stW (by decide)
  exact ⟨h.1 ⟨0, 1, 0, 1⟩ ⟨0, 1, 0, 0⟩ rfl, h.2.1 ⟨7, 1, 5, 3⟩⟩

/-- Claim C6: No-op idempotence of publish. Whenever the diff command exits 0,
honoring the inverted-success convention, the pass reports noOpNoChanges and
issues neither a commit nor a push, for every session state; hence a second
pass over unchanged content, whose diff exits 0, adds no further commit, so
identical content is never committed twice. -/
theorem noop_idempotence (fs : FS) (env : GitEnv) (fresh nowMsg : String)
    (st : HandlerState) (hne : st.pending_changes ≠ []) (hd : env.diffExit = 0) :
    (Main.process_batch fs env fresh nowMsg st).2.2 = some .noOpNoChanges ∧
    (∀ m, Cmd.commit m ∉ (Main.process_batch fs env fresh nowMsg st).2.1) ∧
    (∀ b, Cmd.push b ∉ (Main.process_batch fs env fresh nowMsg st).2.1) ∧
    (∀ p1 p2 : PassInput, p1.batch ≠ [] → p2.batch ≠ [] → p2.env.diffExit = 0 →
       (Main.cmdsOf fs initialState [p1, p2]).countP isCommitCmd
         = (Main.cmdsOf fs initialState [p1]).countP isCommitCmd) := by
  obtain ⟨ho, hc, hpu, _⟩ := Main.process_batch_noop fs env fresh nowMsg st hne hd
  refine ⟨ho, hc, hpu, ?_⟩
  intro p1 p2 h1 h2 hd2
  have hpne : ({ (Main.step fs initialState p1).1 with
      pending_changes := unionList (Main.step fs initialState p1).1.pending_changes p2.batch }
        : HandlerState).pending_changes ≠ [] := unionList_ne_nil h2
  have hnoop := Main.process_batch_noop fs p2.env p2.fresh p2.nowMsg
    { (Main.step fs initialState p1).1 with
      pending_changes := unionList (Main.step fs initialState p1).1.pending_changes p2.batch }
    hpne hd2
  have hcount2 : (Main.step fs (Main.step fs initialState p1).1 p2).2.1.countP isCommitCmd
      = 0 := by
    rw [List.countP_eq_zero]
    intro c hc2 hcommit
    cases c with
    | commit m => exact (hnoop.2.1 m) hc2
    | checkout r => simp [isCommitCmd] at hcommit
    | checkoutNewBranch r => simp [isCommitCmd] at hcommit
    | addAll => simp [isCommitCmd] at hcommit
    | diffCachedQuiet => simp [isCommitCmd] at hcommit
    | push b => simp [isCommitCmd] at hcommit
    | prCreate t base head => simp [isCommitCmd] at hcommit
    | prList b => simp [isCommitCmd] at hcommit
  simp only [Main.cmdsOf, List.append_nil, List.countP_append, hcount2, Nat.add_zero]

/-- Claim C8 counterexample: a concrete new-session pass issues the
request-create command without ever issuing a request-list command, so the
session driver does not check for an existing request before creating. -/
theorem session_pr_without_list_cex :
    (Main.process_batch fsEmpty ⟨0, 1, 0, 0⟩ "abc1234" "ts"
        ⟨none, ["01.15/run_3_09h30/a.csv"], []⟩).2.1
      = [Cmd.checkout "main", Cmd.checkoutNewBranch "add_new_data_abc1234", Cmd.addAll,
         Cmd.diffCachedQuiet, Cmd.commit "Add experimental data: 01.15/run_3_09h30",
         Cmd.push "add_new_data_abc1234",
         Cmd.prCreate "New run data: Unknown; 01.15; Unknown K" "main" "add_new_data_abc1234"] ∧
    Cmd.prList "add_new_data_abc1234" ∉
      (Main.process_batch fsEmpty ⟨0, 1, 0, 0⟩ "abc1234" "ts"
        ⟨none, ["01.15/run_3_09h30/a.csv"], []⟩).2.1 := by
  refine ⟨rfl, by decide⟩

/-- Claim C8 (amended): the list-before-create idempotence belongs to the CSV
variant: its create_pull_request lists the requests for the branch and skips
creation whenever the listing succeeds and reports one, so against a faithful
listing at most one request is ever created for the branch over a whole run;
the session-based passes, by contrast, never issue a request listing at all. -/
theorem pr_creation_idempotent :
    (∀ (env : GhEnv) (f : String), env.prListExit = 0 → pyStrip env.prListStdout ≠ "[]" →
       (Csv.create_pull_request env f).countP isPrCreateCmd = 0) ∧
    (∀ (b : Bool) (files : List String),
       (Csv.runSeq b files).countP isPrCreateCmd ≤ 1) ∧
    (∀ (fs : FS) (env : GitEnv) (fresh nowMsg : String) (st : HandlerState) (br : String),
       Cmd.prList br ∉ (Main.process_batch fs env fresh nowMsg st).2.1) := by
  refine ⟨?_, Csv.runSeq_le_one, Main.process_batch_no_prList⟩
  intro env f hexit hstdout
  unfold Csv.create_pull_request
  rw [if_pos hexit, if_pos hstdout]
  rfl

/-- Witness for pr_creation_idempotent: with a listing reporting an existing
request nothing is created, and a three-file run creates at most once. -/
theorem pr_creation_idempotent_witness :
    (Csv.create_pull_request ⟨0, "[\x7b\"number\":1\x7d]"⟩ "a.csv").countP isPrCreateCmd = 0 ∧
    (Csv.runSeq false ["a.csv", "b.csv", "c.csv"]).countP isPrCreateCmd ≤ 1 ∧
    Cmd.prList "add_new_data_abc1234" ∉
      (Main.process_batch fsEmpty ⟨0, 1, 0, 0⟩ "abc1234" "ts" stW).2.1 := by
  have h := pr_creation_idempotent
  exact ⟨h.1 ⟨0, "[\x7b\"number\":1\x7d]"⟩ "a.csv" rfl (by decide),
    h.2.1 false ["a.csv", "b.csv", "c.csv"],
    h.2.2 fsEmpty ⟨0, 1, 0, 0⟩ "abc1234" "ts" stW "add_new_data_abc1234"⟩

/-- Claim C10: a session whose first pass finds nothing staged keeps the
freshly generated branch identifier as the current branch and reports
noOpNoChanges, so every later pass in the process takes the continuing-session
path, and no review-request creation is issued at any point of the process
lifetime. -/
theorem silent_session_no_pr (fs : FS) (p0 : PassInput) (rest : List PassInput)
    (h0 : p0.batch ≠ []) (hd : p0.env.diffExit = 0) :
    (Main.step fs initialState p0).1.current_branch = some ("add_new_data_" ++ p0.fresh) ∧
    (Main.step fs initialState p0).2.2 = some .noOpNoChanges ∧
    (∀ t base head, Cmd.prCreate t base head ∉ Main.cmdsOf fs initialState (p0 :: rest)) := by
  obtain ⟨hb, hp, _⟩ := Main.first_step fs p0 h0
  have hpne : ({ initialState with pending_changes := unionList [] p0.batch }
      : HandlerState).pending_changes ≠ [] := unionList_ne_nil h0
  have hnoop := Main.process_batch_noop fs p0.env p0.fresh p0.nowMsg
    { initialState with pending_changes := unionList [] p0.batch } hpne hd
  have hstable := Main.branch_stable fs ("add_new_data_" ++ p0.fresh) rest
    (Main.step fs initialState p0).1 hb
  refine ⟨hb, hnoop.1, ?_⟩
  intro t base head
  rw [Main.cmdsOf, List.mem_append]
  rintro (hmem | hmem)
  · exact hnoop.2.2.2 t base head hmem
  · exact hstable.2.2 t base head hmem

/-- Witness for silent_session_no_pr at one concrete quiet first pass. -/
theorem silent_session_no_pr_witness :
    (Main.step fsEmpty initialState ⟨["01.15/run_3_09h30/a.csv"], ⟨0, 0, 0, 0⟩, "abc1234", "ts"⟩).1.current_branch
      = some "add_new_data_abc1234" ∧
    Cmd.prCreate "New run data: Unknown; 01.15; Unknown K" "main" "add_new_data_abc1234" ∉
      Main.cmdsOf fsEmpty initialState
        [⟨["01.15/run_3_09h30/a.csv"], ⟨0, 0, 0, 0⟩, "abc1234", "ts"⟩] := by
  have h := silent_session_no_pr fsEmpty
    ⟨["01.15/run_3_09h30/a.csv"], ⟨0, 0, 0, 0⟩, "abc1234", "ts"⟩ [] (by decide) rfl
  exact ⟨h.1, h.2.2 "New run data: Unknown; 01.15; Unknown K" "main" "add_new_data_abc1234"⟩

/-- Witness for noop_idempotence: a clean-diff pass over one pending file in a
running session reports noOpNoChanges and issues no commit for it. -/
theorem noop_idempotence_witness :
    (Main.process_batch fsEmpty ⟨0, 0, 0, 0⟩ "abc1234" "ts" stW).2.2
      = some PublishOutcome.noOpNoChanges ∧
    Cmd.commit "Update data session - ts" ∉
      (Main.process_batch fsEmpty ⟨0, 0, 0, 0⟩ "abc1234" "ts" stW).2.1 := by
  have h := noop_idempotence fsEmpty ⟨0, 0, 0, 0⟩ "abc1234" "ts" stW (by decide) rfl
  exact ⟨h.1, h.2.1 "Update data session - ts"⟩
